import Mathlib

/-!
# Verification of the SISPS-EXP-SOC label-disambiguation and spectral-cleaning pipeline

Shallow embedding of `Src/eisPreprocess.py`, `Src/eisImport.py` (the `EisData`
record) and `Notebook/Lib/eisAnalysis.py` (grouping).  Measurement values are
modelled as rationals; a pandas `DataFrame` column becomes a `List`; a Python
`dict` (which preserves insertion order) becomes an association list
`List (String × _)`; a Python function that can raise becomes an
`Option`/`Except`-valued function.

The regular-expression searches of the source (`re.search` from the `regex`
module, which behaves like `re`: leftmost position first, alternatives in
written order at each position) are embedded as explicit matchers that try to
match at the head of a character list, together with `searchFirst`, which scans
positions left to right and returns the first successful match.
-/

/- The rational-number operations are `@[irreducible]` upstream, which blocks
`decide` on concrete measurement values; restore the default reducibility so
that concrete runs of the embedded pipeline evaluate inside proofs. -/
attribute [local semireducible] Rat.mul Rat.add Rat.sub Rat.inv

namespace Sisps

/-- One row of the measurement table.  The source consumes the columns
`Zreal1`, `Zimg1` and `ActFreq`; the remaining instrument channels play no
role in the verified code paths. -/
structure Point where
  zreal : ℚ
  zimg : ℚ
  actFreq : ℚ
  deriving DecidableEq, Repr

/-- Structure `EisData` from `Src/eisImport.py`: a measurement table plus a flat
string-keyed metadata record. -/
structure EisData where
  data : List Point
  metadata : List (String × String)
  deriving DecidableEq, Repr

/-- A `Dict[str, EisData]` with insertion order, as an association list. -/
abbrev Dataset := List (String × EisData)

/-! ## Regular-expression matchers

Each matcher corresponds to one pattern of the source and attempts to match at
the head of the given character list. -/

/-- Does `lit` occur literally at the head of `s`? -/
def matchLit : List Char → List Char → Bool
  | [], _ => true
  | _ :: _, [] => false
  | l :: ls, c :: cs => l == c && matchLit ls cs

/-- Pattern `(A|B)\d{2}` (and `(A|B)(?>\d{2})`, identical here because the
atomic group wraps a fixed-length piece): a battery token.  Returns the letter
and the two digits. -/
def matchBattery : List Char → Option (Char × Char × Char)
  | [] => none
  | [_] => none
  | [_, _] => none
  | a :: b :: c :: _ =>
    if (a = 'A' ∨ a = 'B') ∧ b.isDigit ∧ c.isDigit then some (a, b, c) else none

/-- Alternative `RT\d` of the temperature pattern in `disambiguateLabel`. -/
def matchRTdigit : List Char → Option String
  | [] => none
  | [_] => none
  | [_, _] => none
  | a :: b :: d :: _ =>
    if a = 'R' ∧ b = 'T' ∧ d.isDigit then some (String.mk ['R', 'T', d]) else none

/-- Alternative `RT\d?` of the temperature pattern in `renameLabels`: greedy,
so a following digit is consumed when present. -/
def matchRTopt : List Char → Option String
  | [] => none
  | [_] => none
  | a :: b :: rest =>
    if a = 'R' ∧ b = 'T' then
      match rest with
      | d :: _ => if d.isDigit then some (String.mk ['R', 'T', d]) else some "RT"
      | [] => some "RT"
    else none

/-- Pattern `RT\d|-40|-30|-20|-10|00` of `disambiguateLabel`, alternatives in
written order. -/
def matchTempDisambiguate (s : List Char) : Option String :=
  match matchRTdigit s with
  | some r => some r
  | none =>
    if matchLit ['-', '4', '0'] s then some "-40"
    else if matchLit ['-', '3', '0'] s then some "-30"
    else if matchLit ['-', '2', '0'] s then some "-20"
    else if matchLit ['-', '1', '0'] s then some "-10"
    else if matchLit ['0', '0'] s then some "00"
    else none

/-- Pattern `RT\d?|-40|-30|-20|-10|00|_\+00|_0` of `renameLabels`,
alternatives in written order. -/
def matchTempRename (s : List Char) : Option String :=
  match matchRTopt s with
  | some r => some r
  | none =>
    if matchLit ['-', '4', '0'] s then some "-40"
    else if matchLit ['-', '3', '0'] s then some "-30"
    else if matchLit ['-', '2', '0'] s then some "-20"
    else if matchLit ['-', '1', '0'] s then some "-10"
    else if matchLit ['0', '0'] s then some "00"
    else if matchLit ['_', '+', '0', '0'] s then some "_+00"
    else if matchLit ['_', '0'] s then some "_0"
    else none

/-- The `\s` character class restricted to the ASCII whitespace actually used
by the labels. -/
def isSpaceChar (c : Char) : Bool :=
  c = ' ' ∨ c = '\t' ∨ c = '\n' ∨ c = '\x0d' ∨ c = '\x0b' ∨ c = '\x0c'

/-- Pattern `(\s\d$)`: one whitespace character and one digit, anchored at the
end of the string, so it matches only when they are the final two characters. -/
def matchRepetition : List Char → Option String
  | [] => none
  | [_] => none
  | [w, d] => if isSpaceChar w ∧ d.isDigit then some (String.mk [w, d]) else none
  | _ :: _ :: _ :: _ => none

/-- Embedding of `re.search`: try the matcher at every position, left to right, and return
the first success.  (At the empty tail every matcher above fails, matching the
behaviour of the source patterns, each of which needs at least one character.) -/
def searchFirst {α : Type} (m : List Char → Option α) : List Char → Option α
  | [] => none
  | c :: rest =>
    match m (c :: rest) with
    | some r => some r
    | none => searchFirst m rest

/-! ## Label disambiguation (`disambiguateLabel`) -/

/-- Structure `EisLabelDisambiguation` from `Src/eisPreprocess.py`. -/
structure EisLabelDisambiguation where
  batteryBatch : String
  batteryNumber : String
  temperature : String
  runRepetition : Option String
  deriving DecidableEq, Repr

/-- Function `disambiguateLabel` from `Src/eisPreprocess.py`.  The source performs two
battery searches, `(A|B)(?>\d{2})` for group 1 (the letter) and `(A|B)(\d{2})`
for group 2 (the digits); both denote the same leftmost token, embedded here by
the single matcher `matchBattery`.  A failed `assert` becomes `none`
(`InvalidLabelError`). -/
def disambiguateLabel (label : String) : Option EisLabelDisambiguation :=
  match searchFirst matchBattery label.data, searchFirst matchBattery label.data,
      searchFirst matchTempDisambiguate label.data with
  | some (b, _, _), some (_, n1, n2), some t =>
    some ⟨String.mk [b], String.mk [n1, n2], t, searchFirst matchRepetition label.data⟩
  | _, _, _ => none

/-! ## Renaming (`renameLabels`) -/

/-- The two sequential normalisation steps of `renameLabels`: legacy
spellings `_+00` and `_0` become `00`, and a bare `RT` becomes `RT1`.  (In
the source these are two successive `if` reassignments; since `"00"` is never
`"RT"`, the second test only fires when the first did not.) -/
def normalizeTemp (t : String) : String :=
  if t = "_+00" ∨ t = "_0" then "00"
  else if t = "RT" then "RT1"
  else t

/-- The temperature component `renameLabels` uses for a label: the first match
of its temperature pattern, normalised. -/
def canonicalTemperature (label : String) : Option String :=
  (searchFirst matchTempRename label.data).map normalizeTemp

/-- The canonical name `renameLabels` computes for one label
(`prefix + battery + "_" + temperature` plus the repetition suffix when
present; the source names the fixed stem `prefix`, a reserved word here).
`none` corresponds to the `AttributeError` the source raises when `.group` is
called on a failed search. -/
def canonicalName (label : String) : Option String :=
  match searchFirst matchBattery label.data, canonicalTemperature label with
  | some (b, n1, n2), some t =>
    some ("UCT_AST9AH_" ++ String.mk [b, n1, n2] ++ "_" ++ t
      ++ (searchFirst matchRepetition label.data).getD "")
  | _, _ => none

/-- The failure modes of `renameLabels`: an un-parseable label
(`AttributeError` on `.group`) or the `assert newSpectraName not in renamedEis`
(`DuplicateCanonicalLabelError`). -/
inductive RenameError where
  | invalidLabel : String → RenameError
  | duplicateLabel : String → RenameError
  deriving DecidableEq, Repr

/-- The loop of `renameLabels`: process the entries in order, accumulating the
renamed dictionary, stopping at the first duplicate canonical name. -/
def renameGo (acc : Dataset) : Dataset → Except RenameError Dataset
  | [] => .ok acc
  | (spectra, v) :: rest =>
    match canonicalName spectra with
    | none => .error (.invalidLabel spectra)
    | some nm =>
      if nm ∈ acc.map Prod.fst then .error (.duplicateLabel nm)
      else renameGo (acc ++ [(nm, v)]) rest

/-- Function `renameLabels` from `Src/eisPreprocess.py` (the `print` calls are
observability only and are not modelled). -/
def renameLabels (eis : Dataset) : Except RenameError Dataset :=
  renameGo [] eis

/-! ## Spectral filters -/

/-- Function `filterNegativeReal` applied to one series:
`spectrum.data[spectrum.data["Zreal1"] > 0]`. -/
def filterNegativeRealSeries (pts : List Point) : List Point :=
  pts.filter (fun p => 0 < p.zreal)

/-- Function `filterNegativeReal` from `Src/eisPreprocess.py` (deep copy = new value;
the per-series `print` is observability only). -/
def filterNegativeReal (eis : Dataset) : Dataset :=
  eis.map (fun e => (e.1, { e.2 with data := filterNegativeRealSeries e.2.data }))

/-- Embedding of pandas `Series.diff(-k)`: entry `i` is `x[i] - x[i+k]`, `NaN` (here
`none`) where `i+k` runs past the end.  The length is preserved. -/
def diffList (k : ℕ) (xs : List ℚ) : List (Option ℚ) :=
  (List.range xs.length).map fun i =>
    match xs[i]?, xs[i + k]? with
    | some a, some b => some (a - b)
    | _, _ => none

/-- The squared modulus of `re + j*im` built from two optional diffs (`NaN`
propagates).  The source compares moduli with `diff1 < 2 * diff2`; since both
moduli are non-negative this is equivalent to comparing squared moduli with
`diff1sq < 4 * diff2sq`, which keeps the embedding inside `ℚ`
(see `abs_lt_two_abs_iff_sq` below). -/
def absSq : Option ℚ → Option ℚ → Option ℚ
  | some a, some b => some (a ^ 2 + b ^ 2)
  | _, _ => none

/-- The boolean keep-mask `(diff1 < 2*diff2) | diff1.isna() | diff2.isna()`
of `filterSingleOutlier`, one entry per row (a `NaN` comparison is `False` in
pandas, and the `isna` disjuncts then make the entry `True`). -/
def maskList (pts : List Point) : List Bool :=
  let reD1 := diffList 1 (pts.map Point.zreal)
  let imD1 := diffList 1 (pts.map Point.zimg)
  let reD2 := diffList 2 (pts.map Point.zreal)
  let imD2 := diffList 2 (pts.map Point.zimg)
  (List.range pts.length).map fun i =>
    match absSq (reD1.getD i none) (imD1.getD i none),
          absSq (reD2.getD i none) (imD2.getD i none) with
    | some a, some b => decide (a < 4 * b)
    | _, _ => true

/-- Embedding of `.shift(1).fillna(True)`: the mask moves down one row, and the first row
(`NaN` after the shift) becomes `True`.  The last mask entry falls off. -/
def shiftFillTrue (m : List Bool) : List Bool :=
  true :: m.dropLast

/-- Function `filterSingleOutlier` applied to one series: keep the rows whose shifted
mask entry is `True`. -/
def filterSingleOutlierSeries (pts : List Point) : List Point :=
  ((pts.zip (shiftFillTrue (maskList pts))).filter (fun p => p.2)).map (fun p => p.1)

/-- Function `filterSingleOutlier` from `Src/eisPreprocess.py` (deep copy = new value;
the dropped-frequency report is observability only). -/
def filterSingleOutlier (eis : Dataset) : Dataset :=
  eis.map (fun e => (e.1, { e.2 with data := filterSingleOutlierSeries e.2.data }))

/-! ## Specification-side restatement of the outlier keep rule

The spec states the rule by index: `d1[i] = |Z[i] - Z[i+1]|`,
`d2[i] = |Z[i] - Z[i+2]|`, point `i+1` kept iff `d1[i] < 2*d2[i]` or either is
undefined, point `0` always kept.  These definitions follow the spec's words
(squared moduli again stand in for moduli) and are compared with the
translation of the source above. -/

/-- Squared distance between two points in the complex impedance plane. -/
def normSqDiff (z w : Point) : ℚ :=
  (z.zreal - w.zreal) ^ 2 + (z.zimg - w.zimg) ^ 2

/-- Value `d1[i]²`: squared distance from point `i` to point `i+1`, undefined past
the end. -/
def d1sq (pts : List Point) (i : ℕ) : Option ℚ :=
  match pts[i]?, pts[i + 1]? with
  | some z, some w => some (normSqDiff z w)
  | _, _ => none

/-- Value `d2[i]²`: squared distance from point `i` to point `i+2`, undefined past
the end. -/
def d2sq (pts : List Point) (i : ℕ) : Option ℚ :=
  match pts[i]?, pts[i + 2]? with
  | some z, some w => some (normSqDiff z w)
  | _, _ => none

/-- The spec's keep rule for the point at a given index. -/
def keepRuleSpec (pts : List Point) : ℕ → Bool
  | 0 => true
  | i + 1 =>
    match d1sq pts i, d2sq pts i with
    | some a, some b => decide (a < 4 * b)
    | _, _ => true

/-- The spec's description of the outlier filter: keep exactly the points
whose index satisfies the keep rule, in order. -/
def outlierKeepSpec (pts : List Point) : List Point :=
  (List.range pts.length).filterMap fun i =>
    if keepRuleSpec pts i then pts[i]? else none

/-! ## Grouping (`Notebook/Lib/eisAnalysis.py`) -/

/-- An outer dictionary from a derived attribute to an inner dataset. -/
abbrev GroupedDataset := List (String × Dataset)

/-- Python dict assignment `m[k] = v` on an association list: overwrite in
place when the key exists, append otherwise. -/
def dictInsert (m : Dataset) (k : String) (v : EisData) : Dataset :=
  match m with
  | [] => [(k, v)]
  | (k', v') :: rest =>
    if k = k' then (k, v) :: rest else (k', v') :: dictInsert rest k v

/-- One loop iteration of the grouping functions:
`if key not in outer: outer[key] = {}` followed by
`outer[key][spectra] = value`. -/
def insertGrouped (g : GroupedDataset) (k lbl : String) (v : EisData) : GroupedDataset :=
  match g with
  | [] => [(k, [(lbl, v)])]
  | (k', inner) :: rest =>
    if k = k' then (k', dictInsert inner lbl v) :: rest
    else (k', inner) :: insertGrouped rest k lbl v

/-- The shared loop of `groupByBatch`, `groupByTemperature` and
`groupByBatteryNumber` (three textually parallel functions in the source,
differing only in the `Identity` field used as the outer key).  A label that
fails to disambiguate propagates the error. -/
def groupFold (f : EisLabelDisambiguation → String) (acc : GroupedDataset) :
    Dataset → Except String GroupedDataset
  | [] => .ok acc
  | (lbl, v) :: rest =>
    match disambiguateLabel lbl with
    | none => .error lbl
    | some d => groupFold f (insertGrouped acc (f d) lbl v) rest

/-- Function `groupByBatch` from `Notebook/Lib/eisAnalysis.py`. -/
def groupByBatch (eisData : Dataset) : Except String GroupedDataset :=
  groupFold (fun d => d.batteryBatch) [] eisData

/-- Function `groupByTemperature` from `Notebook/Lib/eisAnalysis.py`. -/
def groupByTemperature (eisData : Dataset) : Except String GroupedDataset :=
  groupFold (fun d => d.temperature) [] eisData

/-- Function `groupByBatteryNumber` from `Notebook/Lib/eisAnalysis.py`. -/
def groupByBatteryNumber (eisData : Dataset) : Except String GroupedDataset :=
  groupFold (fun d => d.batteryNumber) [] eisData

/-- All entries of a grouped dataset, group by group. -/
def flattenGroups (g : GroupedDataset) : Dataset :=
  g.flatMap (fun p => p.2)

/-- Every entry of every inner dataset sits under the outer key computed from
its own label's identity. -/
def KeyCorrect (f : EisLabelDisambiguation → String) (g : GroupedDataset) : Prop :=
  ∀ k inner, (k, inner) ∈ g → ∀ lbl v, (lbl, v) ∈ inner →
    ∃ d, disambiguateLabel lbl = some d ∧ f d = k

/-- Predicate: `G` is a partition of `D` keyed by the identity field `f`: the union of
the inner datasets is `D` up to reordering (hence has exactly `D.length`
entries), every entry sits under the key derived from its label, and every
entry of `D` lies in exactly one inner dataset. -/
def IsGroupingOf (f : EisLabelDisambiguation → String) (D : Dataset)
    (G : GroupedDataset) : Prop :=
  (flattenGroups G).Perm D ∧
  (flattenGroups G).length = D.length ∧
  KeyCorrect f G ∧
  ∀ e ∈ D, ∃ k inner, (k, inner) ∈ G ∧ e ∈ inner ∧
    ∀ k' inner', (k', inner') ∈ G → e ∈ inner' → k' = k ∧ inner' = inner

/-! ## Concrete demonstration data -/

/-- A dataset on which the outlier filter is not idempotent: real parts
`0, 4, 2, 1, 0`.  The first pass removes the point with real part `4`;
re-indexing then makes the point with real part `2` fail the keep test on the
second pass. -/
def outlierNotIdemDemo : Dataset :=
  [("spectrum",
    { data := [⟨0, 0, 1⟩, ⟨4, 0, 2⟩, ⟨2, 0, 3⟩, ⟨1, 0, 4⟩, ⟨0, 0, 5⟩],
      metadata := [] })]

/-- Two raw labels with distinct canonical names. -/
def renameDemoOk : Dataset :=
  [("A01_RT1", { data := [], metadata := [] }),
    ("B02_-40 2", { data := [], metadata := [] })]

/-- Two distinct raw labels that disambiguate to the same canonical name
`UCT_AST9AH_A01_RT1`. -/
def renameDemoDup : Dataset :=
  [("A01_RT1", { data := [], metadata := [] }),
    ("x_A01_RT1", { data := [], metadata := [] })]

/-- A small dataset of canonical labels used to exercise the grouping
functions. -/
def groupDemo : Dataset :=
  [("UCT_AST9AH_A01_RT1", { data := [], metadata := [] }),
    ("UCT_AST9AH_B02_-40", { data := [], metadata := [] }),
    ("UCT_AST9AH_A03_00", { data := [], metadata := [] })]

/-! ## Soundness of the squared-modulus encoding

The source compares complex moduli (`diff1 < 2 * diff2`); the embedding
compares squared moduli (`d1sq < 4 * d2sq`).  The two are equivalent. -/

/-- For non-negative squared moduli `a` and `b`, the source's comparison
`√a < 2·√b` holds exactly when `a < 4·b` does. -/
theorem abs_lt_two_abs_iff_sq (a b : ℝ) (ha : 0 ≤ a) (_hb : 0 ≤ b) :
    Real.sqrt a < 2 * Real.sqrt b ↔ a < 4 * b := by
  have h4 : (2 : ℝ) * Real.sqrt b = Real.sqrt (4 * b) := by
    rw [Real.sqrt_mul (by norm_num) b,
      show Real.sqrt 4 = 2 by
        rw [show (4 : ℝ) = 2 ^ 2 by norm_num, Real.sqrt_sq (by norm_num)]]
  rw [h4, Real.sqrt_lt_sqrt_iff ha]

/-! ## The outlier filter realises the spec's indexed keep rule -/

/-- A zip-filter-map over a boolean mask is the index-driven selection. -/
theorem filter_zip_eq_selectIdx {α : Type} (xs : List α) (bs : List Bool) :
    ((xs.zip bs).filter (fun p => p.2)).map (fun p => p.1) =
      (List.range xs.length).filterMap
        (fun i => if bs.getD i false then xs[i]? else none) := by
  induction xs generalizing bs with
  | nil => simp
  | cons x xs ih =>
    cases bs with
    | nil =>
      simp only [List.zip_nil_right, List.filter_nil, List.map_nil]
      symm
      rw [List.filterMap_eq_nil_iff]
      intro i _
      simp [List.getD]
    | cons b bs =>
      rw [List.length_cons, List.range_succ_eq_map, List.filterMap_cons,
        List.filterMap_map]
      have hcomp :
          (fun i => if ((b :: bs).getD i false) then (x :: xs)[i]? else none) ∘ Nat.succ =
            fun i => if bs.getD i false then xs[i]? else none := by
        funext i
        simp [List.getD]
      rw [hcomp, ← ih bs]
      cases b with
      | true => simp [List.getD]
      | false => simp [List.getD]

/-- A `diff(-k)` column of a mapped point coordinate, read at an in-range
row. -/
theorem diffList_map_getD (f : Point → ℚ) (k : ℕ) (pts : List Point) (i : ℕ)
    (hi : i < pts.length) :
    (diffList k (pts.map f)).getD i none =
      match pts[i]?, pts[i + k]? with
      | some a, some b => some (f a - f b)
      | _, _ => none := by
  rw [diffList, List.getD_eq_getElem?_getD, List.getElem?_map,
    List.getElem?_range (by simpa using hi)]
  rcases h1 : pts[i]? with _ | a <;> rcases h2 : pts[i + k]? with _ | b <;>
    simp [List.getElem?_map, h1, h2]

/-- For an in-range index, `d1sq` is the squared modulus of the complex
`diff(-1)` column at that row. -/
theorem absSq_diff_one (pts : List Point) (i : ℕ) (hi : i < pts.length) :
    absSq ((diffList 1 (pts.map Point.zreal)).getD i none)
        ((diffList 1 (pts.map Point.zimg)).getD i none) = d1sq pts i := by
  rw [diffList_map_getD Point.zreal 1 pts i hi, diffList_map_getD Point.zimg 1 pts i hi,
    d1sq]
  rcases h1 : pts[i]? with _ | a <;> rcases h2 : pts[i + 1]? with _ | b <;>
    simp [absSq, normSqDiff]

/-- For an in-range index, `d2sq` is the squared modulus of the complex
`diff(-2)` column at that row. -/
theorem absSq_diff_two (pts : List Point) (i : ℕ) (hi : i < pts.length) :
    absSq ((diffList 2 (pts.map Point.zreal)).getD i none)
        ((diffList 2 (pts.map Point.zimg)).getD i none) = d2sq pts i := by
  rw [diffList_map_getD Point.zreal 2 pts i hi, diffList_map_getD Point.zimg 2 pts i hi,
    d2sq]
  rcases h1 : pts[i]? with _ | a <;> rcases h2 : pts[i + 2]? with _ | b <;>
    simp [absSq, normSqDiff]

/-- The mask row `i` computed by the source is the unshifted keep test for the
point at index `i + 1`. -/
theorem maskList_getD (pts : List Point) (i : ℕ) (hi : i < pts.length) :
    (maskList pts).getD i false = keepRuleSpec pts (i + 1) := by
  rw [maskList]
  simp only [List.getD_eq_getElem?_getD, List.getElem?_map, List.getElem?_range hi]
  simp only [Option.map_some', Option.getD_some, ← List.getD_eq_getElem?_getD]
  rw [absSq_diff_one pts i hi, absSq_diff_two pts i hi, keepRuleSpec]

/-- The shifted-and-filled mask at index `i` is exactly the spec's keep rule
for the point at index `i`. -/
theorem shiftFill_getD (pts : List Point) (i : ℕ) (hi : i < pts.length) :
    (shiftFillTrue (maskList pts)).getD i false = keepRuleSpec pts i := by
  cases i with
  | zero => rfl
  | succ j =>
    have hlen : (maskList pts).length = pts.length := by
      rw [maskList]
      simp
    rw [shiftFillTrue, List.getD_cons_succ, List.getD_eq_getElem?_getD,
      List.getElem?_dropLast, hlen, if_pos (by omega), ← List.getD_eq_getElem?_getD,
      maskList_getD pts j (by omega)]

/-- The translation of `filterSingleOutlier` agrees with the spec's indexed
keep rule on every series. -/
theorem filterSingleOutlierSeries_eq_spec (pts : List Point) :
    filterSingleOutlierSeries pts = outlierKeepSpec pts := by
  rw [filterSingleOutlierSeries, outlierKeepSpec, filter_zip_eq_selectIdx]
  refine List.filterMap_congr ?_
  intro i hi
  rw [shiftFill_getD pts i (by simpa using hi)]

/-- C1: the Single-Point Outlier Filter keeps the point at index `i+1` iff
`d1[i] < 2*d2[i]` or either distance is undefined, keeps point 0
unconditionally, and preserves the order of the kept points (first conjunct:
the filter equals the index-driven keep-rule selection); in particular a
5-point series whose index 2 is a single spike (`d1[1] ≥ 2*d2[1]`, every
other interior index passing its keep test) loses exactly index 2 (second
conjunct).  Distances are compared as squared moduli, which is equivalent
(`abs_lt_two_abs_iff_sq`). -/
theorem outlier_filter_keep_rule :
    (∀ pts : List Point, filterSingleOutlierSeries pts = outlierKeepSpec pts) ∧
    (∀ p0 p1 p2 p3 p4 : Point,
      ¬ normSqDiff p1 p2 < 4 * normSqDiff p1 p3 →
      normSqDiff p0 p1 < 4 * normSqDiff p0 p2 →
      normSqDiff p2 p3 < 4 * normSqDiff p2 p4 →
      filterSingleOutlierSeries [p0, p1, p2, p3, p4] = [p0, p1, p3, p4]) := by
  refine ⟨filterSingleOutlierSeries_eq_spec, ?_⟩
  intro p0 p1 p2 p3 p4 hspike h1 h3
  rw [filterSingleOutlierSeries_eq_spec]
  simp [outlierKeepSpec, keepRuleSpec, d1sq, d2sq, List.range_succ, h1, h3, hspike]

/-- Witness for `outlier_filter_keep_rule`: the concrete 5-point series with
real parts `0, 1, 10, 2, 3` has a single spike at index 2 and the filter
returns exactly the other four points. -/
theorem outlier_filter_keep_rule_witness :
    (¬ normSqDiff ⟨1, 0, 2⟩ ⟨10, 0, 3⟩ < 4 * normSqDiff ⟨1, 0, 2⟩ ⟨2, 0, 4⟩) ∧
    (normSqDiff ⟨0, 0, 1⟩ ⟨1, 0, 2⟩ < 4 * normSqDiff ⟨0, 0, 1⟩ ⟨10, 0, 3⟩) ∧
    (normSqDiff ⟨10, 0, 3⟩ ⟨2, 0, 4⟩ < 4 * normSqDiff ⟨10, 0, 3⟩ ⟨3, 0, 5⟩) ∧
    filterSingleOutlierSeries
        [⟨0, 0, 1⟩, ⟨1, 0, 2⟩, ⟨10, 0, 3⟩, ⟨2, 0, 4⟩, ⟨3, 0, 5⟩] =
      [⟨0, 0, 1⟩, ⟨1, 0, 2⟩, ⟨2, 0, 4⟩, ⟨3, 0, 5⟩] :=
  ⟨by decide, by decide, by decide,
    outlier_filter_keep_rule.2 ⟨0, 0, 1⟩ ⟨1, 0, 2⟩ ⟨10, 0, 3⟩ ⟨2, 0, 4⟩ ⟨3, 0, 5⟩
      (by decide) (by decide) (by decide)⟩

/-- C2 counterexample: in the 3-point series with real parts `0, 10, 1` the
filter removes the point at index 1, which is index `n-2` of the series, so
the two highest indices are not both protected. -/
theorem outlier_filter_removes_second_highest :
    filterSingleOutlierSeries [⟨0, 0, 1⟩, ⟨10, 0, 2⟩, ⟨1, 0, 3⟩] =
        [⟨0, 0, 1⟩, ⟨1, 0, 3⟩] ∧
    (⟨10, 0, 2⟩ : Point) ∉
      filterSingleOutlierSeries [⟨0, 0, 1⟩, ⟨10, 0, 2⟩, ⟨1, 0, 3⟩] := by
  constructor <;> decide

/-- C2 (amended): the Single-Point Outlier Filter never removes the point at
index 0 nor the point at the highest index `n-1` of a series (the point at
index `n-2` can be removed, see the counterexample). -/
theorem outlier_filter_keeps_boundaries (pts : List Point) (h : pts ≠ []) :
    pts.head h ∈ filterSingleOutlierSeries pts ∧
    pts.getLast h ∈ filterSingleOutlierSeries pts := by
  rw [filterSingleOutlierSeries_eq_spec, outlierKeepSpec]
  have hpos : 0 < pts.length := List.length_pos.mpr h
  constructor
  · rw [List.mem_filterMap]
    refine ⟨0, List.mem_range.mpr hpos, ?_⟩
    rw [if_pos (show keepRuleSpec pts 0 = true from rfl), ← List.head?_eq_getElem?,
      List.head?_eq_head h]
  · rw [List.mem_filterMap]
    refine ⟨pts.length - 1, List.mem_range.mpr (by omega), ?_⟩
    have hkeep : keepRuleSpec pts (pts.length - 1) = true := by
      rcases hn : pts.length - 1 with _ | m
      · rfl
      · rw [keepRuleSpec]
        have h2 : pts[m + 2]? = none := List.getElem?_eq_none (by omega)
        rw [d2sq, h2]
        rcases pts[m]? with _ | z <;> rcases pts[m + 1]? with _ | w <;>
          rcases d1sq pts m with _ | a <;> rfl
    rw [hkeep, if_pos rfl, ← List.getLast?_eq_getElem?, List.getLast?_eq_getLast pts h]

/-- Witness for `outlier_filter_keeps_boundaries` on a concrete 3-point
series. -/
theorem outlier_filter_keeps_boundaries_witness :
    ([⟨0, 0, 1⟩, ⟨10, 0, 2⟩, ⟨1, 0, 3⟩] : List Point) ≠ [] ∧
    ((⟨0, 0, 1⟩ : Point) ∈
        filterSingleOutlierSeries [⟨0, 0, 1⟩, ⟨10, 0, 2⟩, ⟨1, 0, 3⟩] ∧
      (⟨1, 0, 3⟩ : Point) ∈
        filterSingleOutlierSeries [⟨0, 0, 1⟩, ⟨10, 0, 2⟩, ⟨1, 0, 3⟩]) :=
  ⟨by decide,
    outlier_filter_keeps_boundaries [⟨0, 0, 1⟩, ⟨10, 0, 2⟩, ⟨1, 0, 3⟩] (by decide)⟩

/-! ## Idempotence (claim C7) -/

/-- On `outlierNotIdemDemo`, a second pass of the outlier filter removes a
further point. -/
theorem outlier_not_idempotent_demo :
    filterSingleOutlier (filterSingleOutlier outlierNotIdemDemo) ≠
      filterSingleOutlier outlierNotIdemDemo := by
  decide

/-- C7 counterexample: applying the Single-Point Outlier Filter twice to a
concrete dataset does not produce the same result as applying it once, so the
two filters are not both idempotent. -/
theorem outlier_filter_not_idempotent :
    filterSingleOutlier (filterSingleOutlier outlierNotIdemDemo) ≠
      filterSingleOutlier outlierNotIdemDemo :=
  outlier_not_idempotent_demo

/-- C7 (amended): the Negative-Real Filter is idempotent on every dataset;
the Single-Point Outlier Filter is a single pass and is not idempotent in
general. -/
theorem negative_real_idempotent_outlier_not :
    (∀ eis : Dataset, filterNegativeReal (filterNegativeReal eis) = filterNegativeReal eis) ∧
    ¬ (∀ eis : Dataset,
        filterSingleOutlier (filterSingleOutlier eis) = filterSingleOutlier eis) := by
  constructor
  · intro eis
    rw [filterNegativeReal, filterNegativeReal, List.map_map]
    refine List.map_congr_left ?_
    intro e _
    simp [filterNegativeRealSeries, List.filter_filter]
  · intro hall
    exact outlier_not_idempotent_demo (hall outlierNotIdemDemo)

/-! ## First-match semantics of the pattern searches (claims C8, C3) -/

/-- The search `searchFirst` finds nothing exactly when the matcher fails at every
position (for matchers that reject the empty tail, as all the embedded
patterns do). -/
theorem searchFirst_eq_none_iff {α : Type} (m : List Char → Option α)
    (hm : m [] = none) (s : List Char) :
    searchFirst m s = none ↔ ∀ i, m (s.drop i) = none := by
  induction s with
  | nil =>
    simp only [searchFirst, List.drop_nil, true_iff]
    intro i
    exact hm
  | cons c rest ih =>
    rw [searchFirst]
    rcases h : m (c :: rest) with _ | r
    · simp only [ih]
      constructor
      · intro hall i
        cases i with
        | zero => exact h
        | succ j => exact hall j
      · intro hall i
        exact hall (i + 1)
    · simp only [reduceCtorEq, false_iff, not_forall]
      exact ⟨0, by simp [h]⟩

/-- C8: when several substrings of a label could satisfy a pattern, the
search deterministically returns the match at the left-most matching position
(first conjunct, for every matcher and label); in particular the label
`"UCT_AST9AH_A01_RT1 2"` disambiguates to batch `"A"`, number `"01"`,
temperature `"RT1"` and repetition `" 2"` (second conjunct). -/
theorem search_first_match_leftmost :
    (∀ {α : Type} (m : List Char → Option α) (s : List Char) (i : ℕ),
      i < s.length → (∀ j, j < i → m (s.drop j) = none) → m (s.drop i) ≠ none →
      searchFirst m s = m (s.drop i)) ∧
    disambiguateLabel "UCT_AST9AH_A01_RT1 2" = some ⟨"A", "01", "RT1", some " 2"⟩ := by
  constructor
  · intro α m s
    induction s with
    | nil =>
      intro i hi
      exact absurd hi (by simp)
    | cons c rest ih =>
      intro i hi hbefore hat
      cases i with
      | zero =>
        rcases h : m (c :: rest) with _ | r
        · exact absurd h (by simpa using hat)
        · rw [searchFirst, h]
          simpa using h.symm
      | succ j =>
        have h0 : m (c :: rest) = none := by simpa using hbefore 0 (Nat.succ_pos j)
        rw [searchFirst, h0, List.drop_succ_cons]
        exact ih j (by simpa using hi) (fun k hk => by simpa using hbefore (k + 1) (by omega))
          (by simpa using hat)
  · decide

/-- Witness for `search_first_match_leftmost`: in `"xRT1_RT2"` the
temperature pattern matches at positions 1 and 5, and the search returns the
match at the left-most position 1. -/
theorem search_first_match_leftmost_witness :
    (1 < ("xRT1_RT2").data.length ∧
      (∀ j, j < 1 → matchTempDisambiguate (("xRT1_RT2").data.drop j) = none) ∧
      matchTempDisambiguate (("xRT1_RT2").data.drop 1) ≠ none) ∧
    searchFirst matchTempDisambiguate ("xRT1_RT2").data =
      matchTempDisambiguate (("xRT1_RT2").data.drop 1) :=
  ⟨⟨by decide, by decide, by decide⟩,
    search_first_match_leftmost.1 matchTempDisambiguate ("xRT1_RT2").data 1
      (by decide) (by decide) (by decide)⟩

/-- C3 counterexample: the label `"A01_RT1_RT2"` contains two distinct
substrings matching the temperature pattern (at offsets 4 and 8), yet
`disambiguateLabel` succeeds (returning the left-most match) instead of
raising `InvalidLabelError`. -/
theorem disambiguate_ambiguous_label_succeeds :
    matchTempDisambiguate (("A01_RT1_RT2").data.drop 4) = some "RT1" ∧
    matchTempDisambiguate (("A01_RT1_RT2").data.drop 8) = some "RT2" ∧
    disambiguateLabel "A01_RT1_RT2" = some ⟨"A", "01", "RT1", none⟩ := by
  refine ⟨by decide, by decide, by decide⟩

/-- C3 (amended): `disambiguateLabel` fails with `InvalidLabelError` exactly
when a required field has zero matching substrings — when the battery pattern
(which supplies both batch and number) or the temperature pattern matches
nowhere in the label; multiple matches for a field are not an error (the
left-most match is used, see the counterexample). -/
theorem disambiguate_invalid_iff_zero_matches (label : String) :
    disambiguateLabel label = none ↔
      ((∀ i, matchBattery (label.data.drop i) = none) ∨
        (∀ i, matchTempDisambiguate (label.data.drop i) = none)) := by
  rw [← searchFirst_eq_none_iff matchBattery rfl,
    ← searchFirst_eq_none_iff matchTempDisambiguate rfl, disambiguateLabel]
  rcases h1 : searchFirst matchBattery label.data with _ | b3
  · simp [h1]
  · rcases h2 : searchFirst matchTempDisambiguate label.data with _ | t
    · simp [h1, h2]
    · rcases b3 with ⟨b, n1, n2⟩
      simp [h1, h2]

/-! ## Temperature normalisation during rename (claim C4) -/

/-- C4: when the temperature field found in a label is the bare code `"RT"`,
the rename step resolves it to the canonical `"RT1"`; when it is a legacy
spelling `"_+00"` or `"_0"`, the rename step resolves it to the canonical
`"00"`.  (The normalisation lives on the rename path: `disambiguateLabel`'s
own pattern `RT\d` does not admit a bare `RT` nor the legacy spellings.) -/
theorem rename_normalizes_temperature (label t : String)
    (ht : searchFirst matchTempRename label.data = some t) :
    (t = "RT" → canonicalTemperature label = some "RT1") ∧
    ((t = "_+00" ∨ t = "_0") → canonicalTemperature label = some "00") := by
  constructor
  · rintro rfl
    rw [canonicalTemperature, ht]
    rfl
  · rintro (rfl | rfl) <;> (rw [canonicalTemperature, ht]; rfl)

/-- Witness for `rename_normalizes_temperature`: a bare-`RT` label and a
legacy `_0` label, normalised during rename to `"RT1"` and `"00"`. -/
theorem rename_normalizes_temperature_witness :
    (searchFirst matchTempRename ("UCT_AST9AH_A01_RT").data = some "RT" ∧
      canonicalTemperature "UCT_AST9AH_A01_RT" = some "RT1") ∧
    (searchFirst matchTempRename ("B03_0").data = some "_0" ∧
      canonicalTemperature "B03_0" = some "00") :=
  ⟨⟨by decide,
      (rename_normalizes_temperature "UCT_AST9AH_A01_RT" "RT" (by decide)).1 rfl⟩,
    ⟨by decide,
      (rename_normalizes_temperature "B03_0" "_0" (by decide)).2 (Or.inr rfl)⟩⟩

/-! ## Rename: success cardinality and duplicate detection (claim C5) -/

/-- Behaviour of the rename loop: given the canonical names of the remaining
entries, it succeeds (appending one renamed entry per input entry) when the
accumulated and remaining names are jointly duplicate-free, and stops with
`DuplicateCanonicalLabelError` otherwise. -/
theorem renameGo_spec (rest : Dataset) :
    ∀ (acc : Dataset) (cs : List String),
      rest.map (fun e => canonicalName e.1) = cs.map some →
      (acc.map Prod.fst).Nodup →
      (((acc.map Prod.fst ++ cs).Nodup →
          renameGo acc rest = .ok (acc ++ cs.zip (rest.map Prod.snd))) ∧
        (¬ (acc.map Prod.fst ++ cs).Nodup →
          ∃ nm, renameGo acc rest = .error (.duplicateLabel nm))) := by
  induction rest with
  | nil =>
    intro acc cs hcs hacc
    have hcs0 : cs = [] := by
      cases cs with
      | nil => rfl
      | cons a l => exact absurd hcs (by simp)
    subst hcs0
    exact ⟨fun _ => by simp [renameGo], fun hdup => absurd (by simpa using hacc) hdup⟩
  | cons e rest ih =>
    intro acc cs hcs hacc
    obtain ⟨l, v⟩ := e
    cases cs with
    | nil => exact absurd hcs (by simp)
    | cons nm cs =>
      rw [List.map_cons, List.map_cons] at hcs
      have hnm : canonicalName l = some nm := (List.cons_eq_cons.mp hcs).1
      have htail : rest.map (fun e => canonicalName e.1) = cs.map some :=
        (List.cons_eq_cons.mp hcs).2
      by_cases hmem : nm ∈ acc.map Prod.fst
      · refine ⟨fun hdup => ?_, fun _ => ?_⟩
        · rw [List.nodup_append] at hdup
          exact absurd (hdup.2.2 hmem (by simp)) (by simp)
        · refine ⟨nm, ?_⟩
          rw [renameGo, hnm]
          simp only [if_pos hmem]
      · have hacc' : ((acc ++ [(nm, v)]).map Prod.fst).Nodup := by
          rw [List.map_append, List.nodup_append]
          refine ⟨hacc, by simp, ?_⟩
          intro a ha hb
          simp only [List.map_cons, List.map_nil, List.mem_singleton] at hb
          subst hb
          exact hmem ha
        have hkeys : (acc ++ [(nm, v)]).map Prod.fst ++ cs =
            acc.map Prod.fst ++ (nm :: cs) := by
          rw [List.map_append, List.append_assoc]
          rfl
        have hstep : renameGo acc ((l, v) :: rest) = renameGo (acc ++ [(nm, v)]) rest := by
          rw [renameGo, hnm]
          simp only [if_neg hmem]
        obtain ⟨hok,herr⟩ := ih (acc ++ [(nm, v)]) cs htail hacc'
        constructor
        · intro hdup
          rw [hstep, hok (by rw [hkeys]; exact hdup)]
          simp [List.append_assoc, List.zip_cons_cons]
        · intro hdup
          exact hstep ▸ herr (by rw [hkeys]; exact hdup)

/-- C5: when no two entries of the input share a canonical name, `renameLabels`
succeeds and the output has exactly one entry per input entry, keyed by the
canonical names; when two distinct raw labels share a canonical name, it
fails with `DuplicateCanonicalLabelError` instead of overwriting. -/
theorem rename_all_cardinality_or_duplicate (eis : Dataset) (cs : List String)
    (hcs : eis.map (fun e => canonicalName e.1) = cs.map some)
    (_hraw : (eis.map Prod.fst).Nodup) :
    (cs.Nodup →
      ∃ out, renameLabels eis = .ok out ∧ out.length = eis.length ∧
        out.map Prod.fst = cs) ∧
    (¬ cs.Nodup → ∃ nm, renameLabels eis = .error (.duplicateLabel nm)) := by
  have hlen : cs.length = eis.length := by
    have := congrArg List.length hcs
    simpa using this.symm
  obtain ⟨hok, herr⟩ := renameGo_spec eis [] cs hcs (by simp)
  constructor
  · intro hnd
    refine ⟨cs.zip (eis.map Prod.snd), ?_, ?_, ?_⟩
    · rw [renameLabels, hok (by simpa using hnd)]
      rfl
    · rw [List.length_zip, List.length_map, hlen, min_self]
    · exact List.map_fst_zip cs (eis.map Prod.snd) (by rw [List.length_map, hlen])
  · intro hnd
    rw [renameLabels]
    exact herr (by simpa using hnd)

/-- Witness for `rename_all_cardinality_or_duplicate`, applying it both to a
collision-free two-label dataset (success, two entries out) and to a dataset
with two distinct raw labels sharing a canonical name (duplicate error). -/
theorem rename_all_cardinality_or_duplicate_witness :
    (renameDemoOk.map (fun e => canonicalName e.1) =
        (["UCT_AST9AH_A01_RT1", "UCT_AST9AH_B02_-40 2"] : List String).map some ∧
      (renameDemoOk.map Prod.fst).Nodup ∧
      (["UCT_AST9AH_A01_RT1", "UCT_AST9AH_B02_-40 2"] : List String).Nodup ∧
      (∃ out, renameLabels renameDemoOk = .ok out ∧ out.length = renameDemoOk.length ∧
        out.map Prod.fst = ["UCT_AST9AH_A01_RT1", "UCT_AST9AH_B02_-40 2"])) ∧
    (renameDemoDup.map (fun e => canonicalName e.1) =
        (["UCT_AST9AH_A01_RT1", "UCT_AST9AH_A01_RT1"] : List String).map some ∧
      (renameDemoDup.map Prod.fst).Nodup ∧
      ¬ (["UCT_AST9AH_A01_RT1", "UCT_AST9AH_A01_RT1"] : List String).Nodup ∧
      (∃ nm, renameLabels renameDemoDup = .error (.duplicateLabel nm))) :=
  ⟨⟨by decide, by decide, by decide,
      (rename_all_cardinality_or_duplicate renameDemoOk
        ["UCT_AST9AH_A01_RT1", "UCT_AST9AH_B02_-40 2"] (by decide) (by decide)).1
        (by decide)⟩,
    ⟨by decide, by decide, by decide,
      (rename_all_cardinality_or_duplicate renameDemoDup
        ["UCT_AST9AH_A01_RT1", "UCT_AST9AH_A01_RT1"] (by decide) (by decide)).2
        (by decide)⟩⟩

/-! ## Grouping is a partition (claim C6) -/

/-- Inserting a fresh key into an inner dictionary appends it. -/
theorem dictInsert_of_notMem (m : Dataset) (k : String) (v : EisData)
    (h : k ∉ m.map Prod.fst) : dictInsert m k v = m ++ [(k, v)] := by
  induction m with
  | nil => rfl
  | cons e rest ih =>
    obtain ⟨k', v'⟩ := e
    rw [dictInsert]
    rw [if_neg (by rintro rfl; exact h (by simp))]
    rw [ih (by intro hm; exact h (by simp [hm]))]
    rfl

/-- Membership after a dictionary insert: the new pair or an old one. -/
theorem mem_dictInsert (m : Dataset) (k : String) (v : EisData) (e : String × EisData)
    (h : e ∈ dictInsert m k v) : e = (k, v) ∨ e ∈ m := by
  induction m with
  | nil => simpa [dictInsert] using h
  | cons e' rest ih =>
    obtain ⟨k', v'⟩ := e'
    rw [dictInsert] at h
    by_cases hk : k = k'
    · rw [if_pos hk] at h
      rcases List.mem_cons.mp h with h1 | h1
      · exact Or.inl h1
      · exact Or.inr (List.mem_cons_of_mem _ h1)
    · rw [if_neg hk] at h
      rcases List.mem_cons.mp h with h1 | h1
      · exact Or.inr (h1 ▸ List.mem_cons_self _ _)
      · rcases ih h1 with h2 | h2
        · exact Or.inl h2
        · exact Or.inr (List.mem_cons_of_mem _ h2)

/-- Inserting an entry whose label is fresh in the flattened accumulator adds
that entry exactly once, up to reordering. -/
theorem flattenGroups_insertGrouped (g : GroupedDataset) (k lbl : String) (v : EisData)
    (h : lbl ∉ (flattenGroups g).map Prod.fst) :
    (flattenGroups (insertGrouped g k lbl v)).Perm ((lbl, v) :: flattenGroups g) := by
  induction g with
  | nil =>
    simp [insertGrouped, flattenGroups]
  | cons e rest ih =>
    obtain ⟨k', inner⟩ := e
    have hflat : flattenGroups ((k', inner) :: rest) = inner ++ flattenGroups rest := by
      simp [flattenGroups]
    rw [hflat] at h
    by_cases hk : k = k'
    · rw [insertGrouped, if_pos hk]
      have hfresh : lbl ∉ inner.map Prod.fst := by
        intro hm
        exact h (by simp [hm])
      rw [show flattenGroups ((k', dictInsert inner lbl v) :: rest) =
          dictInsert inner lbl v ++ flattenGroups rest by simp [flattenGroups],
        dictInsert_of_notMem inner lbl v hfresh, hflat, List.append_assoc]
      exact List.perm_middle
    · rw [insertGrouped, if_neg hk]
      have hfresh : lbl ∉ (flattenGroups rest).map Prod.fst := by
        intro hm
        exact h (by simp [hm])
      rw [show flattenGroups ((k', inner) :: insertGrouped rest k lbl v) =
          inner ++ flattenGroups (insertGrouped rest k lbl v) by simp [flattenGroups],
        hflat]
      exact ((ih hfresh).append_left inner).trans List.perm_middle

/-- Key-correctness is preserved by inserting an entry under the key computed
from its own identity. -/
theorem keyCorrect_insertGrouped (f : EisLabelDisambiguation → String)
    (g : GroupedDataset) (lbl : String) (v : EisData) (d : EisLabelDisambiguation)
    (hd : disambiguateLabel lbl = some d) (hkc : KeyCorrect f g) :
    KeyCorrect f (insertGrouped g (f d) lbl v) := by
  induction g with
  | nil =>
    intro k inner hmem l w hl
    rw [insertGrouped] at hmem
    injection List.mem_singleton.mp hmem with h1 h2
    subst h1
    subst h2
    injection List.mem_singleton.mp hl with h3 h4
    subst h3
    exact ⟨d, hd, rfl⟩
  | cons e rest ih =>
    obtain ⟨k', inner'⟩ := e
    intro k inner hmem l w hl
    rw [insertGrouped] at hmem
    by_cases hk : f d = k'
    · rw [if_pos hk] at hmem
      rcases List.mem_cons.mp hmem with h1 | h1
      · injection h1 with hk1 hk2
        subst hk1
        subst hk2
        rcases mem_dictInsert inner' lbl v (l, w) hl with h2 | h2
        · injection h2 with h3 h4
          subst h3
          exact ⟨d, hd, hk⟩
        · exact hkc k inner' (by simp) l w h2
      · exact hkc k inner (List.mem_cons_of_mem _ h1) l w hl
    · rw [if_neg hk] at hmem
      rcases List.mem_cons.mp hmem with h1 | h1
      · injection h1 with hk1 hk2
        subst hk1
        subst hk2
        exact hkc k inner (by simp) l w hl
      · exact ih (fun a b hab => hkc a b (List.mem_cons_of_mem _ hab)) k inner h1 l w hl

/-- Inserting under an existing key keeps the outer key list; inserting under
a fresh key appends it. -/
theorem keys_insertGrouped (g : GroupedDataset) (k lbl : String) (v : EisData) :
    (insertGrouped g k lbl v).map Prod.fst = g.map Prod.fst ∨
      (k ∉ g.map Prod.fst ∧
        (insertGrouped g k lbl v).map Prod.fst = g.map Prod.fst ++ [k]) := by
  induction g with
  | nil => exact Or.inr ⟨by simp, by simp [insertGrouped]⟩
  | cons e rest ih =>
    obtain ⟨k', inner⟩ := e
    by_cases hk : k = k'
    · exact Or.inl (by rw [insertGrouped, if_pos hk]; simp [hk])
    · rw [insertGrouped, if_neg hk]
      rcases ih with h | ⟨h1, h2⟩
      · exact Or.inl (by simp [h])
      · refine Or.inr ⟨?_, by simp [h2]⟩
        simp only [List.map_cons, List.mem_cons]
        rintro (rfl | hm)
        · exact hk rfl
        · exact h1 hm

/-- The outer keys stay duplicate-free under insertion. -/
theorem keysNodup_insertGrouped (g : GroupedDataset) (k lbl : String) (v : EisData)
    (h : (g.map Prod.fst).Nodup) :
    ((insertGrouped g k lbl v).map Prod.fst).Nodup := by
  rcases keys_insertGrouped g k lbl v with h1 | ⟨h1, h2⟩
  · rw [h1]; exact h
  · rw [h2, List.nodup_append]
    refine ⟨h, by simp, ?_⟩
    intro a ha hb
    rcases List.mem_singleton.mp hb with rfl
    exact h1 ha

/-- With duplicate-free outer keys, an entry determines its group. -/
theorem assoc_unique (g : GroupedDataset) (hnd : (g.map Prod.fst).Nodup)
    (k : String) (x y : Dataset) (hx : (k, x) ∈ g) (hy : (k, y) ∈ g) : x = y := by
  induction g with
  | nil => exact absurd hx (by simp)
  | cons e rest ih =>
    obtain ⟨k', z⟩ := e
    rw [List.map_cons, List.nodup_cons] at hnd
    rcases List.mem_cons.mp hx with h1 | h1 <;> rcases List.mem_cons.mp hy with h2 | h2
    · obtain ⟨-, rfl⟩ := Prod.ext_iff.mp h1
      obtain ⟨-, rfl⟩ := Prod.ext_iff.mp h2
      rfl
    · obtain ⟨rfl, -⟩ := Prod.ext_iff.mp h1
      exact absurd (List.mem_map_of_mem Prod.fst h2) hnd.1
    · obtain ⟨rfl, -⟩ := Prod.ext_iff.mp h2
      exact absurd (List.mem_map_of_mem Prod.fst h1) hnd.1
    · exact ih hnd.2 h1 h2

/-- Behaviour of the grouping loop: when every remaining label disambiguates
and no label repeats, the loop succeeds and the result extends the
accumulator by exactly the remaining entries, preserving key-correctness and
duplicate-free outer keys. -/
theorem groupFold_spec (f : EisLabelDisambiguation → String) (rest : Dataset) :
    ∀ acc : GroupedDataset,
      (∀ e ∈ rest, (disambiguateLabel e.1).isSome) →
      ((flattenGroups acc).map Prod.fst ++ rest.map Prod.fst).Nodup →
      KeyCorrect f acc →
      (acc.map Prod.fst).Nodup →
      ∃ G, groupFold f acc rest = .ok G ∧
        (flattenGroups G).Perm (flattenGroups acc ++ rest) ∧
        KeyCorrect f G ∧ (G.map Prod.fst).Nodup := by
  induction rest with
  | nil =>
    intro acc _ _ hkc hnd
    exact ⟨acc, rfl, by simp, hkc, hnd⟩
  | cons e rest ih =>
    intro acc hparse hlbl hkc hnd
    obtain ⟨lbl, v⟩ := e
    obtain ⟨d, hd⟩ := Option.isSome_iff_exists.mp (hparse (lbl, v) (by simp))
    have hfresh : lbl ∉ (flattenGroups acc).map Prod.fst := by
      rw [List.nodup_append] at hlbl
      intro hm
      exact hlbl.2.2 hm (by simp)
    have hperm1 := flattenGroups_insertGrouped acc (f d) lbl v hfresh
    have hkeyperm :
        ((flattenGroups (insertGrouped acc (f d) lbl v)).map Prod.fst ++
            rest.map Prod.fst).Perm
          ((flattenGroups acc).map Prod.fst ++ ((lbl, v) :: rest).map Prod.fst) := by
      refine ((hperm1.map Prod.fst).append_right (rest.map Prod.fst)).trans ?_
      simp only [List.map_cons]
      exact List.perm_middle.symm
    obtain ⟨G, hG, hGperm, hGkc, hGnd⟩ := ih (insertGrouped acc (f d) lbl v)
      (fun a ha => hparse a (List.mem_cons_of_mem _ ha))
      (hkeyperm.nodup_iff.mpr hlbl)
      (keyCorrect_insertGrouped f acc lbl v d hd hkc)
      (keysNodup_insertGrouped acc (f d) lbl v hnd)
    refine ⟨G, ?_, ?_, hGkc, hGnd⟩
    · rw [groupFold, hd]
      exact hG
    · refine hGperm.trans ?_
      refine (hperm1.append_right rest).trans ?_
      exact List.perm_middle.symm

/-- A successful grouping run yields a partition in the sense of
`IsGroupingOf`. -/
theorem groupFold_partition (f : EisLabelDisambiguation → String) (D : Dataset)
    (hkeys : (D.map Prod.fst).Nodup)
    (hparse : ∀ e ∈ D, (disambiguateLabel e.1).isSome) :
    ∃ G, groupFold f [] D = .ok G ∧ IsGroupingOf f D G := by
  obtain ⟨G, hG, hperm, hkc, hnd⟩ := groupFold_spec f D []
    hparse (by simpa [flattenGroups] using hkeys)
    (by intro k inner hmem; exact absurd hmem (by simp)) (by simp)
  rw [show flattenGroups [] ++ D = D by simp [flattenGroups]] at hperm
  refine ⟨G, hG, hperm, hperm.length_eq, hkc, ?_⟩
  intro e he
  obtain ⟨⟨k, inner⟩, hin, hei⟩ := List.mem_flatMap.mp (hperm.mem_iff.mpr he)
  refine ⟨k, inner, hin, hei, ?_⟩
  intro k' inner' hin' hei'
  obtain ⟨d, hd, hfd⟩ := hkc k inner hin e.1 e.2 hei
  obtain ⟨d', hd', hfd'⟩ := hkc k' inner' hin' e.1 e.2 hei'
  have hkk : k' = k := by
    rw [hd] at hd'
    rw [← hfd, ← hfd', Option.some_inj.mp hd']
  refine ⟨hkk, ?_⟩
  rw [hkk] at hin'
  exact assoc_unique G hnd k inner' inner hin' hin

/-- C6: for each partition key — batch, temperature, battery number — grouping
a dataset whose labels all disambiguate is a partition: the inner datasets
together contain exactly the original entries (same labels, same series),
each exactly once, and each entry's group key is the corresponding field of
the identity derived from its label. -/
theorem grouping_is_partition (D : Dataset)
    (hkeys : (D.map Prod.fst).Nodup)
    (hparse : ∀ e ∈ D, (disambiguateLabel e.1).isSome) :
    (∃ G, groupByBatch D = .ok G ∧ IsGroupingOf (fun d => d.batteryBatch) D G) ∧
    (∃ G, groupByTemperature D = .ok G ∧ IsGroupingOf (fun d => d.temperature) D G) ∧
    (∃ G, groupByBatteryNumber D = .ok G ∧
      IsGroupingOf (fun d => d.batteryNumber) D G) :=
  ⟨groupFold_partition (fun d => d.batteryBatch) D hkeys hparse,
    groupFold_partition (fun d => d.temperature) D hkeys hparse,
    groupFold_partition (fun d => d.batteryNumber) D hkeys hparse⟩

/-- Witness for `grouping_is_partition` on a concrete three-entry dataset
with two batches. -/
theorem grouping_is_partition_witness :
    ((groupDemo.map Prod.fst).Nodup ∧
      ∀ e ∈ groupDemo, (disambiguateLabel e.1).isSome) ∧
    ((∃ G, groupByBatch groupDemo = .ok G ∧
        IsGroupingOf (fun d => d.batteryBatch) groupDemo G) ∧
      (∃ G, groupByTemperature groupDemo = .ok G ∧
        IsGroupingOf (fun d => d.temperature) groupDemo G) ∧
      (∃ G, groupByBatteryNumber groupDemo = .ok G ∧
        IsGroupingOf (fun d => d.batteryNumber) groupDemo G)) :=
  ⟨⟨by decide, by decide⟩, grouping_is_partition groupDemo (by decide) (by decide)⟩

/-! ## Round trip of rename and disambiguation (claim C10)

The canonical label produced by `renameLabels` is
`"UCT_AST9AH_" ++ <letter><digit><digit> ++ "_" ++ <temperature> [++ <rep>]`.
The lemmas below characterise the shapes of the matched fragments and then
evaluate the three searches of `disambiguateLabel` on a string of this shape
symbolically, position by position. -/

/-- A property of matcher results transfers to search results. -/
theorem searchFirst_shape {α : Type} (m : List Char → Option α) (P : α → Prop)
    (hm : ∀ s r, m s = some r → P r) :
    ∀ (s : List Char) (r : α), searchFirst m s = some r → P r := by
  intro s
  induction s with
  | nil =>
    intro r h
    exact absurd h (by simp [searchFirst])
  | cons c rest ih =>
    intro r h
    rw [searchFirst] at h
    rcases hmm : m (c :: rest) with _ | x
    · rw [hmm] at h
      exact ih r h
    · rw [hmm] at h
      injection h with h'
      exact h' ▸ hm (c :: rest) x hmm

/-- What a successful battery match looks like. -/
theorem matchBattery_some (s : List Char) (c d1 d2 : Char)
    (h : matchBattery s = some (c, d1, d2)) :
    (c = 'A' ∨ c = 'B') ∧ d1.isDigit ∧ d2.isDigit := by
  match s with
  | [] => exact absurd h (by simp [matchBattery])
  | [a] => exact absurd h (by simp [matchBattery])
  | [a, b] => exact absurd h (by simp [matchBattery])
  | a :: b :: e :: t =>
    rw [matchBattery] at h
    by_cases hcond : (a = 'A' ∨ a = 'B') ∧ b.isDigit ∧ e.isDigit
    · rw [if_pos hcond] at h
      injection h with h'
      injection h' with h1 h2
      injection h2 with h3 h4
      subst h1; subst h3; subst h4
      exact hcond
    · rw [if_neg hcond] at h
      exact absurd h (by simp)

/-- What a successful `RT\d?` match looks like. -/
theorem matchRTopt_some (s : List Char) (r : String) (h : matchRTopt s = some r) :
    r = "RT" ∨ ∃ d, d.isDigit ∧ r = String.mk ['R', 'T', d] := by
  match s with
  | [] => exact absurd h (by simp [matchRTopt])
  | [a] => exact absurd h (by simp [matchRTopt])
  | a :: b :: rest =>
    simp only [matchRTopt] at h
    by_cases hab : a = 'R' ∧ b = 'T'
    · rw [if_pos hab] at h
      match rest with
      | [] =>
        injection h with h'
        exact Or.inl h'.symm
      | d :: u =>
        have h2 : (if d.isDigit then some (String.mk ['R', 'T', d]) else some "RT") =
            some r := h
        by_cases hd : d.isDigit
        · rw [if_pos hd] at h2
          injection h2 with h'
          exact Or.inr ⟨d, hd, h'.symm⟩
        · rw [if_neg hd] at h2
          injection h2 with h'
          exact Or.inl h'.symm
    · rw [if_neg hab] at h
      exact absurd h (by simp)

/-- What a successful rename-temperature match looks like. -/
theorem matchTempRename_some (s : List Char) (r : String)
    (h : matchTempRename s = some r) :
    r = "RT" ∨ (∃ d, d.isDigit ∧ r = String.mk ['R', 'T', d]) ∨
      r = "-40" ∨ r = "-30" ∨ r = "-20" ∨ r = "-10" ∨ r = "00" ∨
      r = "_+00" ∨ r = "_0" := by
  rw [matchTempRename] at h
  rcases hopt : matchRTopt s with _ | r0
  · rw [hopt] at h
    split_ifs at h <;> simp_all
  · rw [hopt] at h
    injection h with h'
    rcases matchRTopt_some s r0 hopt with h1 | ⟨d, hd, h1⟩
    · exact Or.inl (h' ▸ h1)
    · exact Or.inr (Or.inl ⟨d, hd, h' ▸ h1⟩)

/-- What a successful repetition match looks like. -/
theorem matchRepetition_some (s : List Char) (r : String)
    (h : matchRepetition s = some r) :
    ∃ w d, isSpaceChar w ∧ d.isDigit ∧ r = String.mk [w, d] := by
  match s with
  | [] => exact absurd h (by simp [matchRepetition])
  | [a] => exact absurd h (by simp [matchRepetition])
  | [a, b] =>
    rw [matchRepetition] at h
    by_cases hc : isSpaceChar a ∧ b.isDigit
    · rw [if_pos hc] at h
      injection h with h'
      exact ⟨a, b, hc.1, hc.2, h'.symm⟩
    · rw [if_neg hc] at h
      exact absurd h (by simp)
  | a :: b :: e :: t => exact absurd h (by simp [matchRepetition])

/-- The temperature the rename step produces is an `RT` code with digit
suffix or one of the five numeric codes. -/
theorem canonicalTemperature_shape (label : String) (t : String)
    (h : canonicalTemperature label = some t) :
    (∃ d, d.isDigit ∧ t = String.mk ['R', 'T', d]) ∨
      t = "-40" ∨ t = "-30" ∨ t = "-20" ∨ t = "-10" ∨ t = "00" := by
  rw [canonicalTemperature] at h
  rcases hraw : searchFirst matchTempRename label.data with _ | r
  · rw [hraw] at h
    exact absurd h (by simp)
  · rw [hraw] at h
    injection h with h'
    have hshape := searchFirst_shape matchTempRename
      (fun r => r = "RT" ∨ (∃ d, d.isDigit ∧ r = String.mk ['R', 'T', d]) ∨
        r = "-40" ∨ r = "-30" ∨ r = "-20" ∨ r = "-10" ∨ r = "00" ∨
        r = "_+00" ∨ r = "_0")
      matchTempRename_some label.data r hraw
    subst h'
    rcases hshape with rfl | ⟨d, hd, rfl⟩ | rfl | rfl | rfl | rfl | rfl | rfl | rfl
    · exact Or.inl ⟨'1', by decide, by decide⟩
    · refine Or.inl ⟨d, hd, ?_⟩
      have h1 : String.mk ['R', 'T', d] ≠ "_+00" := by
        intro hh
        simpa using congrArg String.data hh
      have h2 : String.mk ['R', 'T', d] ≠ "_0" := by
        intro hh
        simpa using congrArg String.data hh
      have h3 : String.mk ['R', 'T', d] ≠ "RT" := by
        intro hh
        simpa using congrArg String.data hh
      rw [normalizeTemp, if_neg (fun hh => hh.elim h1 h2), if_neg h3]
    · exact Or.inr (Or.inl rfl)
    · exact Or.inr (Or.inr (Or.inl rfl))
    · exact Or.inr (Or.inr (Or.inr (Or.inl rfl)))
    · exact Or.inr (Or.inr (Or.inr (Or.inr (Or.inl rfl))))
    · exact Or.inr (Or.inr (Or.inr (Or.inr (Or.inr rfl))))
    · exact Or.inr (Or.inr (Or.inr (Or.inr (Or.inr rfl))))
    · exact Or.inr (Or.inr (Or.inr (Or.inr (Or.inr rfl))))

/-- A failed matcher lets the search move one position to the right. -/
theorem searchFirst_cons_of_none {α : Type} (m : List Char → Option α) (a : Char)
    (s : List Char) (h : m (a :: s) = none) :
    searchFirst m (a :: s) = searchFirst m s := by
  rw [searchFirst, h]

/-- The battery pattern fails where the head is not `A` or `B`. -/
theorem matchBattery_none_head (a : Char) (s : List Char)
    (h : ¬(a = 'A' ∨ a = 'B')) : matchBattery (a :: s) = none := by
  match s with
  | [] => rfl
  | [b] => rfl
  | b :: e :: t =>
    rw [matchBattery]
    exact if_neg (fun hc => h hc.1)

/-- The battery pattern fails where the second character is not a digit. -/
theorem matchBattery_none_digit (a b : Char) (s : List Char)
    (h : b.isDigit = false) : matchBattery (a :: b :: s) = none := by
  match s with
  | [] => rfl
  | e :: t =>
    rw [matchBattery]
    exact if_neg (fun hc => by rw [hc.2.1] at h; cases h)

/-- Pattern `RT\d` fails where the head is not `R`. -/
theorem matchRTdigit_none_head (a : Char) (s : List Char) (h : a ≠ 'R') :
    matchRTdigit (a :: s) = none := by
  match s with
  | [] => rfl
  | [b] => rfl
  | b :: e :: t =>
    rw [matchRTdigit]
    exact if_neg (fun hc => h hc.1)

/-- The disambiguation temperature pattern fails where the head is not `R`,
`-` or `0`. -/
theorem matchTempDisambiguate_none_head (a : Char) (s : List Char)
    (hR : a ≠ 'R') (hm : a ≠ '-') (h0 : a ≠ '0') :
    matchTempDisambiguate (a :: s) = none := by
  rw [matchTempDisambiguate, matchRTdigit_none_head a s hR]
  simp [matchLit, Ne.symm hm, Ne.symm h0]

/-- The disambiguation temperature pattern fails on the two battery digits
followed by the separator, provided the digits are not `00`. -/
theorem matchTempDisambiguate_none_digits (d1 d2 : Char) (t : List Char)
    (hnum : ¬(d1 = '0' ∧ d2 = '0')) :
    matchTempDisambiguate (d1 :: d2 :: '_' :: t) = none := by
  rw [matchTempDisambiguate]
  rw [show matchRTdigit (d1 :: d2 :: '_' :: t) = none from by
    rw [matchRTdigit]; exact if_neg (fun hc => absurd hc.2.2 (by decide))]
  simp only [matchLit, Bool.and_true, Bool.and_false]
  simp
  exact fun ha hb => hnum ⟨ha.symm, hb.symm⟩

/-- The disambiguation temperature pattern fails where the second character
is the separator `_`. -/
theorem matchTempDisambiguate_none_underscore (a : Char) (t : List Char) :
    matchTempDisambiguate (a :: '_' :: t) = none := by
  rw [matchTempDisambiguate]
  rw [show matchRTdigit (a :: '_' :: t) = none from by
    match t with
    | [] => rfl
    | e :: u => rw [matchRTdigit]; exact if_neg (fun hc => absurd hc.2.1 (by decide))]
  simp [matchLit]

/-- The battery search on a canonical name finds exactly the battery token at
offset 11: nothing in the stem `UCT_AST9AH_` matches the battery pattern. -/
theorem battery_on_canonical (c d1 d2 : Char) (u : List Char)
    (hc : c = 'A' ∨ c = 'B') (h1 : d1.isDigit) (h2 : d2.isDigit) :
    searchFirst matchBattery
        ('U' :: 'C' :: 'T' :: '_' :: 'A' :: 'S' :: 'T' :: '9' :: 'A' :: 'H' :: '_' ::
          c :: d1 :: d2 :: u) = some (c, d1, d2) := by
  rw [searchFirst_cons_of_none matchBattery 'U' _ (matchBattery_none_head 'U' _ (by decide)),
    searchFirst_cons_of_none matchBattery 'C' _ (matchBattery_none_head 'C' _ (by decide)),
    searchFirst_cons_of_none matchBattery 'T' _ (matchBattery_none_head 'T' _ (by decide)),
    searchFirst_cons_of_none matchBattery '_' _ (matchBattery_none_head '_' _ (by decide)),
    searchFirst_cons_of_none matchBattery 'A' _ (matchBattery_none_digit 'A' 'S' _ (by decide)),
    searchFirst_cons_of_none matchBattery 'S' _ (matchBattery_none_head 'S' _ (by decide)),
    searchFirst_cons_of_none matchBattery 'T' _ (matchBattery_none_head 'T' _ (by decide)),
    searchFirst_cons_of_none matchBattery '9' _ (matchBattery_none_head '9' _ (by decide)),
    searchFirst_cons_of_none matchBattery 'A' _ (matchBattery_none_digit 'A' 'H' _ (by decide)),
    searchFirst_cons_of_none matchBattery 'H' _ (matchBattery_none_head 'H' _ (by decide)),
    searchFirst_cons_of_none matchBattery '_' _ (matchBattery_none_head '_' _ (by decide)),
    searchFirst]
  rw [show matchBattery (c :: d1 :: d2 :: u) = some (c, d1, d2) from by
    rw [matchBattery]; exact if_pos ⟨hc, h1, h2⟩]

/-- The temperature search on a canonical name skips the stem, the battery
token (provided its digits are not `00`) and the separator, landing at the
temperature fragment. -/
theorem temp_on_canonical (c d1 d2 : Char) (u : List Char)
    (hc : c = 'A' ∨ c = 'B') (hnum : ¬(d1 = '0' ∧ d2 = '0')) :
    searchFirst matchTempDisambiguate
        ('U' :: 'C' :: 'T' :: '_' :: 'A' :: 'S' :: 'T' :: '9' :: 'A' :: 'H' :: '_' ::
          c :: d1 :: d2 :: '_' :: u) =
      searchFirst matchTempDisambiguate u := by
  have hcR : c ≠ 'R' := by rcases hc with rfl | rfl <;> decide
  have hcm : c ≠ '-' := by rcases hc with rfl | rfl <;> decide
  have hc0 : c ≠ '0' := by rcases hc with rfl | rfl <;> decide
  rw [searchFirst_cons_of_none matchTempDisambiguate 'U' _
      (matchTempDisambiguate_none_head 'U' _ (by decide) (by decide) (by decide)),
    searchFirst_cons_of_none matchTempDisambiguate 'C' _
      (matchTempDisambiguate_none_head 'C' _ (by decide) (by decide) (by decide)),
    searchFirst_cons_of_none matchTempDisambiguate 'T' _
      (matchTempDisambiguate_none_head 'T' _ (by decide) (by decide) (by decide)),
    searchFirst_cons_of_none matchTempDisambiguate '_' _
      (matchTempDisambiguate_none_head '_' _ (by decide) (by decide) (by decide)),
    searchFirst_cons_of_none matchTempDisambiguate 'A' _
      (matchTempDisambiguate_none_head 'A' _ (by decide) (by decide) (by decide)),
    searchFirst_cons_of_none matchTempDisambiguate 'S' _
      (matchTempDisambiguate_none_head 'S' _ (by decide) (by decide) (by decide)),
    searchFirst_cons_of_none matchTempDisambiguate 'T' _
      (matchTempDisambiguate_none_head 'T' _ (by decide) (by decide) (by decide)),
    searchFirst_cons_of_none matchTempDisambiguate '9' _
      (matchTempDisambiguate_none_head '9' _ (by decide) (by decide) (by decide)),
    searchFirst_cons_of_none matchTempDisambiguate 'A' _
      (matchTempDisambiguate_none_head 'A' _ (by decide) (by decide) (by decide)),
    searchFirst_cons_of_none matchTempDisambiguate 'H' _
      (matchTempDisambiguate_none_head 'H' _ (by decide) (by decide) (by decide)),
    searchFirst_cons_of_none matchTempDisambiguate '_' _
      (matchTempDisambiguate_none_head '_' _ (by decide) (by decide) (by decide)),
    searchFirst_cons_of_none matchTempDisambiguate c _
      (matchTempDisambiguate_none_head c _ hcR hcm hc0),
    searchFirst_cons_of_none matchTempDisambiguate d1 _
      (matchTempDisambiguate_none_digits d1 d2 u hnum),
    searchFirst_cons_of_none matchTempDisambiguate d2 _
      (matchTempDisambiguate_none_underscore d2 u),
    searchFirst_cons_of_none matchTempDisambiguate '_' _
      (matchTempDisambiguate_none_head '_' _ (by decide) (by decide) (by decide))]

/-- Disambiguating a string of canonical shape recovers the battery letter,
the battery digits and the temperature fragment. -/
theorem disambiguate_canonical (nm : String) (c d1 d2 : Char) (t : String)
    (u : List Char)
    (hdata : nm.data =
      'U' :: 'C' :: 'T' :: '_' :: 'A' :: 'S' :: 'T' :: '9' :: 'A' :: 'H' :: '_' ::
        c :: d1 :: d2 :: '_' :: u)
    (hc : c = 'A' ∨ c = 'B') (h1 : d1.isDigit) (h2 : d2.isDigit)
    (hnum : ¬(d1 = '0' ∧ d2 = '0'))
    (hu : searchFirst matchTempDisambiguate u = some t) :
    ∃ rep, disambiguateLabel nm =
      some ⟨String.mk [c], String.mk [d1, d2], t, rep⟩ := by
  rw [disambiguateLabel, hdata, battery_on_canonical c d1 d2 _ hc h1 h2,
    temp_on_canonical c d1 d2 u hc hnum, hu]
  exact ⟨searchFirst matchRepetition
    ('U' :: 'C' :: 'T' :: '_' :: 'A' :: 'S' :: 'T' :: '9' :: 'A' :: 'H' :: '_' ::
      c :: d1 :: d2 :: '_' :: u), rfl⟩

/-- C10 counterexample: `renameLabels` accepts the raw label `"-40_A00"`
(battery `A00`, temperature `-40`) and produces the canonical label
`"UCT_AST9AH_A00_-40"`; re-parsing that canonical label succeeds but returns
temperature `"00"` — the battery digits, not the temperature the rename
extracted — because `00` matches the temperature pattern at an earlier
position than `-40`. -/
theorem rename_roundtrip_counterexample :
    canonicalTemperature "-40_A00" = some "-40" ∧
    canonicalName "-40_A00" = some "UCT_AST9AH_A00_-40" ∧
    disambiguateLabel "UCT_AST9AH_A00_-40" = some ⟨"A", "00", "00", none⟩ := by
  refine ⟨by decide, by decide, by decide⟩

/-- C10 (amended): for every raw label that `renameLabels` accepts whose
battery digits are not `00`, disambiguating the canonical label succeeds and
yields the same battery batch letter, the same battery number digits, and the
normalised temperature code the rename step extracted.  (When the battery
number is `00`, the re-parsed temperature can differ — see the
counterexample.) -/
theorem rename_roundtrip_parse (label nm : String) (c d1 d2 : Char) (t : String)
    (hb : searchFirst matchBattery label.data = some (c, d1, d2))
    (ht : canonicalTemperature label = some t)
    (hnm : canonicalName label = some nm)
    (hnum : ¬(d1 = '0' ∧ d2 = '0')) :
    ∃ rep, disambiguateLabel nm =
      some ⟨String.mk [c], String.mk [d1, d2], t, rep⟩ := by
  obtain ⟨hc, h1, h2⟩ := searchFirst_shape matchBattery
    (fun r => (r.1 = 'A' ∨ r.1 = 'B') ∧ r.2.1.isDigit ∧ r.2.2.isDigit)
    (fun s r hr => by obtain ⟨a, b, e⟩ := r; exact matchBattery_some s a b e hr)
    label.data (c, d1, d2) hb
  rw [canonicalName, hb, ht] at hnm
  injection hnm with hnm'
  subst hnm'
  rcases canonicalTemperature_shape label t ht with ⟨d, hd, rfl⟩ | rfl | rfl | rfl | rfl | rfl
  · refine disambiguate_canonical _ c d1 d2 _
      ('R' :: 'T' :: d ::
        ((searchFirst matchRepetition label.data).getD "").data)
      rfl hc h1 h2 hnum ?_
    have hm : matchRTdigit ('R' :: 'T' :: d ::
        ((searchFirst matchRepetition label.data).getD "").data) =
        some (String.mk ['R', 'T', d]) := by
      rw [matchRTdigit]
      exact if_pos ⟨rfl, rfl, hd⟩
    rw [searchFirst, matchTempDisambiguate, hm]
  · refine disambiguate_canonical _ c d1 d2 _
      ('-' :: '4' :: '0' ::
        ((searchFirst matchRepetition label.data).getD "").data)
      rfl hc h1 h2 hnum ?_
    rw [searchFirst, matchTempDisambiguate, matchRTdigit_none_head _ _ (by decide)]
    simp [matchLit]
  · refine disambiguate_canonical _ c d1 d2 _
      ('-' :: '3' :: '0' ::
        ((searchFirst matchRepetition label.data).getD "").data)
      rfl hc h1 h2 hnum ?_
    rw [searchFirst, matchTempDisambiguate, matchRTdigit_none_head _ _ (by decide)]
    simp [matchLit]
  · refine disambiguate_canonical _ c d1 d2 _
      ('-' :: '2' :: '0' ::
        ((searchFirst matchRepetition label.data).getD "").data)
      rfl hc h1 h2 hnum ?_
    rw [searchFirst, matchTempDisambiguate, matchRTdigit_none_head _ _ (by decide)]
    simp [matchLit]
  · refine disambiguate_canonical _ c d1 d2 _
      ('-' :: '1' :: '0' ::
        ((searchFirst matchRepetition label.data).getD "").data)
      rfl hc h1 h2 hnum ?_
    rw [searchFirst, matchTempDisambiguate, matchRTdigit_none_head _ _ (by decide)]
    simp [matchLit]
  · refine disambiguate_canonical _ c d1 d2 _
      ('0' :: '0' ::
        ((searchFirst matchRepetition label.data).getD "").data)
      rfl hc h1 h2 hnum ?_
    rw [searchFirst, matchTempDisambiguate, matchRTdigit_none_head _ _ (by decide)]
    simp [matchLit]

/-- Witness for `rename_roundtrip_parse`: the raw label `"A01_RT1"` renames to
`"UCT_AST9AH_A01_RT1"`, which re-parses to batch `"A"`, number `"01"` and
temperature `"RT1"`. -/
theorem rename_roundtrip_parse_witness :
    (searchFirst matchBattery ("A01_RT1").data = some ('A', '0', '1') ∧
      canonicalTemperature "A01_RT1" = some "RT1" ∧
      canonicalName "A01_RT1" = some "UCT_AST9AH_A01_RT1" ∧
      ¬(('0' : Char) = '0' ∧ ('1' : Char) = '0')) ∧
    ∃ rep, disambiguateLabel "UCT_AST9AH_A01_RT1" =
      some ⟨"A", "01", "RT1", rep⟩ :=
  ⟨⟨by decide, by decide, by decide, by decide⟩,
    rename_roundtrip_parse "A01_RT1" "UCT_AST9AH_A01_RT1" 'A' '0' '1' "RT1"
      (by decide) (by decide) (by decide) (by decide)⟩

end Sisps
